import Mathlib

/-!
Shallow embedding of `src/LanguageModel.ipynb` (a character-level LSTM
language model notebook).  Strings are modelled as `List Char`, integer
tensors as (nested) lists of `Nat`, and logit tensors as lists of `Int`.
The LSTM itself is library code (`torch.nn.LSTM`); it is modelled
abstractly as a recurrence `cell : σ → input → σ` over an arbitrary state
type `σ`, which is all the stateful-protocol and generation claims depend
on.  Stateful Python objects (`MyRNN` with its `self.hiddens` attribute)
become explicit state threading: `forward` returns the updated instance,
and the attribute that does not exist before the first assignment is an
`Option` that starts out `none`.
-/

namespace LanguageModel

/-- Cell 3: `chars = 'abcdefghijklmnopqrstuvwxyz. '` — the fixed vocabulary. -/
def chars : List Char := "abcdefghijklmnopqrstuvwxyz. ".toList

/-- Cell 3: `input_size = len(chars)`. -/
def input_size : Nat := chars.length

/-- First index of a character in a list, `none` if absent.  This is the
lookup performed by the dictionary `char_to_int` built with
`dict((c, i) for i, c in enumerate(chars))` (the characters of `chars` are
pairwise distinct, so the dictionary maps each character to its unique
index in `chars`). -/
def findIdx (c : Char) : List Char → Option Nat
  | [] => none
  | d :: ds => if c = d then some 0 else (findIdx c ds).map (· + 1)

/-- Cell 3: the dictionary `char_to_int`; `char_to_int.get(c, -1)` returns
`-1` exactly when this function returns `none`. -/
def char_to_int (c : Char) : Option Nat := findIdx c chars

/-- Cell 3: the dictionary `int_to_char`; defined on `[0, len(chars))`,
a `KeyError` (here `none`) outside. -/
def int_to_char (i : Nat) : Option Char := chars.get? i

/-- Cell 3: `tokenize`.  The source lowercases, maps each character to
`char_to_int.get(char, -1)` and filters out the `-1` entries; tagging the
absent characters with the sentinel `-1` and dropping them is exactly
`filterMap char_to_int`. -/
def tokenize (data : List Char) : List Nat :=
  (data.map Char.toLower).filterMap char_to_int

/-- `torch.eye(n, dtype=int)`: the n × n identity matrix. -/
def eye (n : Nat) : List (List Nat) :=
  (List.range n).map (fun i => (List.range n).map (fun j => if i = j then 1 else 0))

/-- Cell 3: `onehot(idx, input_size) = torch.eye(input_size)[idx]` for a
rank-1 index tensor: each index is replaced by the corresponding row of
the identity matrix (the trailing `.float()` only changes the dtype of the
0/1 entries). -/
def onehot (idx : List Nat) (input_size : Nat) : List (List Nat) :=
  idx.map (fun i => (eye input_size).getD i [])

/-- Cell 5: the `Alice(Dataset)` class.  `idx` is the tokenized corpus,
`size` the window length passed to `__init__`. -/
structure Alice where
  idx : List Nat
  size : Nat

/-- Cell 5: `__getitem__` returns `self.idx[index:(index+self.size)]`.
For a non-negative index Python slicing is the truncating
`take`-after-`drop`; it never raises. -/
def Alice.getItem (a : Alice) (index : Nat) : List Nat :=
  (a.idx.drop index).take a.size

/-- Cell 5: `__len__` returns `len(self.idx) - self.size`. -/
def Alice.len (a : Alice) : Nat := a.idx.length - a.size

/-- Cell 7: the `MyRNN(nn.Module)` instance.  `lstmCell` is one step of
the recurrence computed by `nn.LSTM` (consuming one one-hot input row and
the previous (hidden, cell) state), `linear` is the fully connected layer
applied to the per-step LSTM output (dropout is the identity in `eval`
mode), `zeroState` is the all-zero default initial state, and `hiddens`
is the `self.hiddens` attribute, which does not exist (`none`) until the
first assignment in `forward`. -/
structure MyRNN (σ : Type) where
  lstmCell : σ → List Nat → σ
  linear : σ → List Int
  zeroState : σ
  hiddens : Option σ

/-- The roll-out performed by `nn.LSTM` on a time sequence: starting from
state `s`, consume the input rows one per time step, emitting the state
after each step (whose hidden part is that step's output) and the final
state. -/
def lstmRun {σ : Type} (cell : σ → List Nat → σ) : σ → List (List Nat) → List σ × σ
  | s, [] => ([], s)
  | s, x :: xs =>
    let s1 := cell s x
    let r := lstmRun cell s1 xs
    (s1 :: r.1, r.2)

/-- Cell 7: `MyRNN.forward(input, zero_hidden)`.  With `zero_hidden` true
the LSTM starts from the zero state; otherwise it starts from
`self.hiddens`, which raises `AttributeError` (`none`) if no previous call
ever assigned it.  After the LSTM call the final state is stored back into
`self.hiddens`, and the per-step outputs go through dropout (identity in
eval mode) and the linear projection. -/
def MyRNN.forward {σ : Type} (net : MyRNN σ) (input : List (List Nat))
    (zero_hidden : Bool) : Option (List (List Int) × MyRNN σ) :=
  if zero_hidden then
    let r := lstmRun net.lstmCell net.zeroState input
    some (r.1.map net.linear, { net with hiddens := some r.2 })
  else
    match net.hiddens with
    | none => none
    | some s =>
      let r := lstmRun net.lstmCell s input
      some (r.1.map net.linear, { net with hiddens := some r.2 })

/-- Cell 9: `inputs = onehot(idx, input_size); inputs = inputs[:,:-1,:]` —
one-hot encode each window of the batch and drop the last time step. -/
def trainInputs (batch : List (List Nat)) (input_size : Nat) : List (List (List Nat)) :=
  (batch.map (fun w => onehot w input_size)).map List.dropLast

/-- Cell 9: `targets = idx[:,1:]` — drop the first token of each window. -/
def trainTargets (batch : List (List Nat)) : List (List Nat) :=
  batch.map (fun w => w.drop 1)

/-- `torch.max(outputs, 2)` index component for one logit vector: the
index of the (first) maximal entry. -/
def argmaxAux : List Int → Nat → Nat → Int → Nat
  | [], _, best, _ => best
  | x :: xs, i, best, bv => if bv < x then argmaxAux xs (i + 1) i x else argmaxAux xs (i + 1) best bv

/-- Index of the first maximal entry of a logit vector (0 on the empty
vector, which torch would reject; generation never reaches that case). -/
def argmax : List Int → Nat
  | [] => 0
  | x :: xs => argmaxAux xs 1 0 x

/-- Cell 11, loop body iterated `gen_length` times: one-hot the current
token sequence, run the network (fresh state the first time through,
stored state afterwards), take the argmax of the final time step's logits
as the next token, decode it (`int_to_char[token]`, a `KeyError`/`none`
out of range) and append it to the output, then feed the single new token
back in.  `predicted[0,-1]` on an empty output sequence is an
`IndexError`/`none`. -/
def genLoop {σ : Type} : MyRNN σ → List Nat → List Char → Bool → Nat → Option (List Char)
  | _, _, output, _, 0 => some output
  | net, idx, output, zero_hidden, Nat.succ n =>
    match net.forward (onehot idx input_size) zero_hidden with
    | none => none
    | some (outputs, net1) =>
      match outputs.getLast? with
      | none => none
      | some logits =>
        let token := argmax logits
        match int_to_char token with
        | none => none
        | some c => genLoop net1 [token] (output ++ [c]) false n

/-- Cell 11: the whole generation procedure — tokenize the priming text,
start the output as the priming text itself, and iterate the sampling
loop `gen_length` times starting in fresh mode. -/
def generate {σ : Type} (net : MyRNN σ) (pretext : List Char) (gen_length : Nat) :
    Option (List Char) :=
  genLoop net (tokenize pretext) pretext true gen_length

/-- Spec-side normalization (for the round-trip claim): lowercase the text
and keep exactly the characters that are in the vocabulary. -/
def normalize (s : List Char) : List Char :=
  (s.map Char.toLower).filter (fun c => c ∈ chars)

/-- Spec-side decoding of a whole token sequence: decode each token to its
character and concatenate, failing if any single lookup fails. -/
def decodeAll : List Nat → Option (List Char)
  | [] => some []
  | t :: ts =>
    match int_to_char t with
    | none => none
    | some c => (decodeAll ts).map (fun cs => c :: cs)

/-! ### Helper lemmas -/

theorem findIdx_get? (c : Char) (l : List Char) (i : Nat) (h : findIdx c l = some i) :
    l.get? i = some c := by
  induction l generalizing i with
  | nil => simp [findIdx] at h
  | cons d ds ih =>
    by_cases hc : c = d
    · simp [findIdx, hc] at h
      subst hc h
      rfl
    · simp [findIdx, hc] at h
      obtain ⟨j, hj, hji⟩ := h
      subst hji
      simpa using ih j hj

theorem findIdx_eq_none (c : Char) (l : List Char) : findIdx c l = none ↔ c ∉ l := by
  induction l with
  | nil => simp [findIdx]
  | cons d ds ih =>
    by_cases hc : c = d
    · simp [findIdx, hc]
    · simp [findIdx, hc, ih]

theorem decodeAll_filterMap (l : List Char) :
    decodeAll (l.filterMap char_to_int) = some (l.filter (fun c => c ∈ chars)) := by
  induction l with
  | nil => rfl
  | cons c cs ih =>
    cases h : char_to_int c with
    | none =>
      have hc : c ∉ chars := (findIdx_eq_none c chars).mp h
      simp [List.filterMap_cons, h, List.filter_cons, hc, ih]
    | some i =>
      have hget : chars.get? i = some c := findIdx_get? c chars i h
      have hc : c ∈ chars := List.get?_mem hget
      rw [List.get?_eq_getElem?] at hget
      simp [List.filterMap_cons, h, List.filter_cons, hc, decodeAll, int_to_char, hget, ih]

theorem filterMap_eq_filter_map {α β : Type} (f : α → Option β) (d : β) (l : List α) :
    l.filterMap f = (l.filter (fun a => (f a).isSome)).map (fun a => (f a).getD d) := by
  induction l with
  | nil => rfl
  | cons a l ih =>
    cases h : f a with
    | none => simp [List.filterMap_cons, List.filter_cons, h, ih]
    | some b => simp [List.filterMap_cons, List.filter_cons, h, ih]

/-! ### Claim theorems -/

/-- C1: for every text string, decoding each token of `tokenize` back to
its character and concatenating yields exactly the string obtained by
lowercasing the input and deleting every character not in the 28-symbol
vocabulary, and nothing else. -/
theorem codec_roundtrip :
    chars.length = 28 ∧
    ∀ s : List Char, decodeAll (tokenize s) = some (normalize s) := by
  refine ⟨rfl, fun s => ?_⟩
  simpa [tokenize, normalize] using decodeAll_filterMap (s.map Char.toLower)

/-- C9: tokenization is a total function that silently discards every
character whose lowercasing is outside the vocabulary: the result is the
(possibly empty) sequence of indices of the surviving characters, and an
input made only of out-of-vocabulary characters tokenizes to the empty
sequence. -/
theorem tokenize_silent_drop :
    (∀ s : List Char,
      tokenize s = ((s.map Char.toLower).filter (fun c => (char_to_int c).isSome)).map
        (fun c => (char_to_int c).getD 0)) ∧
    (∀ s : List Char, (∀ c ∈ s, char_to_int c.toLower = none) → tokenize s = []) := by
  constructor
  · intro s
    exact filterMap_eq_filter_map char_to_int 0 (s.map Char.toLower)
  · intro s h
    simp only [tokenize, List.filterMap_eq_nil_iff]
    intro c hc
    simp only [List.mem_map] at hc
    obtain ⟨d, hd, rfl⟩ := hc
    exact h d hd

/-- C9 witness: a string made only of digits and punctuation outside the
vocabulary tokenizes to the empty sequence without any error. -/
theorem tokenize_silent_drop_witness : tokenize "0123!?".toList = [] := by
  exact tokenize_silent_drop.2 "0123!?".toList (by decide)

/-- C2: for a tokenized corpus of length `N` and window size `W < N`, the
dataset length is exactly `N - W` and, for every `i < N - W`, window `i`
has length `W` and agrees with the corpus slice `tokens[i : i+W]`
position by position; and the concrete corpus `[0,1,0,1,2,1,0]` with
`W = 4` exposes exactly the three windows of the spec scenario. -/
theorem alice_windows_spec :
    (∀ (tokens : List Nat) (W i : Nat), W < tokens.length → i < tokens.length - W →
      (Alice.mk tokens W).len = tokens.length - W ∧
      ((Alice.mk tokens W).getItem i).length = W ∧
      (∀ j, j < W → ((Alice.mk tokens W).getItem i).getD j 0 = tokens.getD (i + j) 0)) ∧
    ((Alice.mk [0,1,0,1,2,1,0] 4).len = 3 ∧
     (Alice.mk [0,1,0,1,2,1,0] 4).getItem 0 = [0,1,0,1] ∧
     (Alice.mk [0,1,0,1,2,1,0] 4).getItem 1 = [1,0,1,2] ∧
     (Alice.mk [0,1,0,1,2,1,0] 4).getItem 2 = [0,1,2,1]) := by
  constructor
  · intro tokens W i hW hi
    refine ⟨rfl, ?_, ?_⟩
    · simp only [Alice.getItem, List.length_take, List.length_drop]
      omega
    · intro j hj
      simp only [Alice.getItem, List.getD_eq_getElem?_getD,
        List.getElem?_take_of_lt hj, List.getElem?_drop]
  · exact ⟨rfl, rfl, rfl, rfl⟩

/-- C2 witness: the general part instantiated on the scenario corpus at
window index 1. -/
theorem alice_windows_spec_witness :
    (Alice.mk [0,1,0,1,2,1,0] 4).len = 7 - 4 ∧
    ((Alice.mk [0,1,0,1,2,1,0] 4).getItem 1).length = 4 ∧
    ((Alice.mk [0,1,0,1,2,1,0] 4).getItem 1).getD 2 0 = List.getD [0,1,0,1,2,1,0] 3 0 := by
  have h := alice_windows_spec.1 [0,1,0,1,2,1,0] 4 1 (by decide) (by decide)
  exact ⟨h.1, h.2.1, h.2.2 2 (by decide)⟩

/-- C3 counterexample: on the scenario corpus (`N = 7`, `W = 4`, valid
indices `[0, 3)`), requesting window 5 does not fail: `__getitem__`
returns the silently truncated slice `[1, 0]` of length 2. -/
theorem alice_getItem_no_bounds_check :
    (Alice.mk [0,1,0,1,2,1,0] 4).len = 3 ∧
    (Alice.mk [0,1,0,1,2,1,0] 4).getItem 5 = [1, 0] ∧
    ((Alice.mk [0,1,0,1,2,1,0] 4).getItem 5).length ≠ 4 := by
  exact ⟨rfl, rfl, by decide⟩

/-- C3 (amended): for every index `i` at or beyond `N - W`, `get(i)`
raises no error; Python slicing returns the truncating slice
`tokens[i:]`, of length `N - i` — a full final window when `i = N - W`,
a shorter suffix when `N - W < i < N`, and the empty sequence when
`i ≥ N`. -/
theorem alice_getItem_truncates :
    ∀ (tokens : List Nat) (W i : Nat), tokens.length - W ≤ i →
      (Alice.mk tokens W).getItem i = tokens.drop i ∧
      ((Alice.mk tokens W).getItem i).length = tokens.length - i := by
  intro tokens W i hi
  have hlen : (tokens.drop i).length ≤ W := by
    simp only [List.length_drop]
    omega
  have heq : (Alice.mk tokens W).getItem i = tokens.drop i := by
    simpa only [Alice.getItem] using List.take_of_length_le hlen
  refine ⟨heq, ?_⟩
  rw [heq]
  exact List.length_drop i tokens

/-- C3 witness: the amended statement instantiated at the counterexample
index 5 of the scenario corpus. -/
theorem alice_getItem_truncates_witness :
    (Alice.mk [0,1,0,1,2,1,0] 4).getItem 5 = List.drop 5 [0,1,0,1,2,1,0] ∧
    ((Alice.mk [0,1,0,1,2,1,0] 4).getItem 5).length = 7 - 5 := by
  exact alice_getItem_truncates [0,1,0,1,2,1,0] 4 5 (by decide)

theorem eye_getD (n i : Nat) (hi : i < n) :
    (eye n).getD i [] = (List.range n).map (fun j => if i = j then 1 else 0) := by
  simp [eye, List.getD_eq_getElem?_getD, List.getElem?_map, List.getElem?_range hi]

/-- C4: one-hot encoding an index tensor whose entries all lie in
`[0, V)` yields one vector per entry, each of length `V`, equal to 1 at
the coordinate given by that entry and 0 at every other coordinate; the
function is a pure function of its arguments. -/
theorem onehot_spec :
    ∀ (V : Nat) (idx : List Nat), (∀ x ∈ idx, x < V) →
      (onehot idx V).length = idx.length ∧
      ∀ p, p < idx.length →
        ((onehot idx V).getD p []).length = V ∧
        (∀ j, j < V →
          ((onehot idx V).getD p []).getD j 0 = if j = idx.getD p 0 then 1 else 0) := by
  intro V idx hvalid
  refine ⟨by simp [onehot], ?_⟩
  intro p hp
  have hxv : idx[p] < V := hvalid idx[p] (List.getElem_mem hp)
  have hgd : idx.getD p 0 = idx[p] := by
    simp [List.getD_eq_getElem?_getD, List.getElem?_eq_getElem hp]
  have hrow : (onehot idx V).getD p [] = (eye V).getD idx[p] [] := by
    simp [onehot, List.getD_eq_getElem?_getD, List.getElem?_map, List.getElem?_eq_getElem hp]
  rw [hrow, eye_getD V idx[p] hxv, hgd]
  refine ⟨by simp, ?_⟩
  intro j hj
  simp only [List.getD_eq_getElem?_getD, List.getElem?_map, List.getElem?_range hj,
    Option.map_some, Option.getD_some]
  rcases eq_or_ne j idx[p] with h | h
  · simp [h]
  · simp [h, Ne.symm h]

/-- C4 witness: the one-hot rows of the index tensor `[2, 0]` over a
4-symbol vocabulary, checked at concrete coordinates. -/
theorem onehot_spec_witness :
    ((onehot [2, 0] 4).getD 0 []).length = 4 ∧
    ((onehot [2, 0] 4).getD 0 []).getD 2 0 = 1 ∧
    ((onehot [2, 0] 4).getD 0 []).getD 1 0 = 0 := by
  have h := (onehot_spec 4 [2, 0] (by decide)).2 0 (by decide)
  refine ⟨h.1, ?_, ?_⟩
  · have := h.2 2 (by decide)
    simpa using this
  · have := h.2 1 (by decide)
    simpa using this

/-- C5: for every batch entry that is a window of length `W > 0`, the
teacher-forced input drops the window's last token and the target drops
its first token: both have length `W - 1`, input step `t` is the one-hot
row of token `t` of the window, and target step `t` is token `t + 1` —
the character immediately following. -/
theorem teacher_forcing_spec :
    ∀ (V W : Nat) (batch : List (List Nat)) (b : Nat), 0 < W → b < batch.length →
      (batch.getD b []).length = W →
      ((trainInputs batch V).getD b []).length = W - 1 ∧
      ((trainTargets batch).getD b []).length = W - 1 ∧
      (∀ t, t < W - 1 →
        ((trainInputs batch V).getD b []).getD t []
          = (eye V).getD ((batch.getD b []).getD t 0) [] ∧
        ((trainTargets batch).getD b []).getD t 0
          = (batch.getD b []).getD (t + 1) 0) := by
  intro V W batch b hW hb hwlen
  have hgd : batch.getD b [] = batch[b] := by
    simp [List.getD_eq_getElem?_getD, List.getElem?_eq_getElem hb]
  rw [hgd] at hwlen
  have hin : (trainInputs batch V).getD b [] = (onehot batch[b] V).dropLast := by
    simp [trainInputs, List.getD_eq_getElem?_getD, List.getElem?_map,
      List.getElem?_eq_getElem hb]
  have htg : (trainTargets batch).getD b [] = batch[b].drop 1 := by
    simp [trainTargets, List.getD_eq_getElem?_getD, List.getElem?_map,
      List.getElem?_eq_getElem hb]
  have honelen : (onehot batch[b] V).length = W := by simp [onehot, hwlen]
  refine ⟨?_, ?_, ?_⟩
  · rw [hin]
    simp [List.length_dropLast, honelen]
  · rw [htg]
    simp [hwlen]
  · intro t ht
    have htw : t < batch[b].length := by omega
    have ht1 : t + 1 < batch[b].length := by omega
    constructor
    · rw [hin, hgd]
      rw [List.getD_eq_getElem?_getD, List.getElem?_dropLast]
      have hcond : t < (onehot batch[b] V).length - 1 := by
        rw [honelen]
        exact ht
      rw [if_pos hcond]
      simp [onehot, List.getElem?_map, List.getElem?_eq_getElem htw,
        List.getD_eq_getElem?_getD]
    · rw [htg, hgd]
      simp [List.getD_eq_getElem?_getD, List.getElem?_drop,
        List.getElem?_eq_getElem ht1, Nat.add_comm 1 t]

/-- C5 witness: the teacher-forced input/target alignment on the single
window `[0, 1, 2, 3]` over a 4-symbol vocabulary. -/
theorem teacher_forcing_spec_witness :
    ((trainInputs [[0,1,2,3]] 4).getD 0 []).length = 3 ∧
    ((trainTargets [[0,1,2,3]]).getD 0 []).length = 3 ∧
    ((trainTargets [[0,1,2,3]]).getD 0 []).getD 1 0 = List.getD [0,1,2,3] 2 0 := by
  have h := teacher_forcing_spec 4 4 [[0,1,2,3]] 0 (by decide) (by decide) (by decide)
  exact ⟨h.1, h.2.1, (h.2.2 1 (by decide)).2⟩

/-- C6: a fresh-mode call runs the recurrence from the all-zero state no
matter what state is currently stored, a continued-mode call runs it from
exactly the stored state, and in both modes the instance after the call
stores exactly that call's final state, overwriting whatever was there
before. -/
theorem forward_state_protocol :
    ∀ (σ : Type) (net : MyRNN σ) (input : List (List Nat)),
      (∀ h : Option σ,
        MyRNN.forward { net with hiddens := h } input true
          = some ((lstmRun net.lstmCell net.zeroState input).1.map net.linear,
                  { net with hiddens := some (lstmRun net.lstmCell net.zeroState input).2 })) ∧
      (∀ s : σ,
        MyRNN.forward { net with hiddens := some s } input false
          = some ((lstmRun net.lstmCell s input).1.map net.linear,
                  { net with hiddens := some (lstmRun net.lstmCell s input).2 })) := by
  intro σ net input
  exact ⟨fun h => rfl, fun s => rfl⟩

/-- C10: calling `forward` in continued mode on an instance on which no
call has ever completed fails (the `self.hiddens` attribute does not
exist yet), while after any completed call — which stores `some` state —
a continued-mode call is defined. -/
theorem forward_requires_prior_call :
    ∀ (σ : Type) (net : MyRNN σ) (input : List (List Nat)),
      (net.hiddens = none → net.forward input false = none) ∧
      (∀ s : σ, net.hiddens = some s → (net.forward input false).isSome = true) := by
  intro σ net input
  constructor
  · intro h
    simp [MyRNN.forward, h]
  · intro s h
    simp [MyRNN.forward, h]

/-- C10 witness: on a concrete fresh instance the continued-mode call
fails, and on the same instance with a stored state it succeeds. -/
theorem forward_requires_prior_call_witness :
    (MyRNN.mk (fun (s : Unit) _ => s) (fun _ => ([] : List Int)) () none).forward [] false
      = none ∧
    ((MyRNN.mk (fun (s : Unit) _ => s) (fun _ => ([] : List Int)) () (some ())).forward []
      false).isSome = true := by
  constructor
  · exact (forward_requires_prior_call Unit _ []).1 rfl
  · exact (forward_requires_prior_call Unit _ []).2 () rfl

/-- C7: with the same weights (recurrence, projection, zero state) and
dropout inactive, generation is a deterministic function of the weights
and the priming string — in particular the stored recurrent state left
over from any earlier run does not influence the output, so two runs with
identical primer and length produce identical output. -/
theorem generate_deterministic :
    ∀ (σ : Type) (net1 net2 : MyRNN σ) (pretext : List Char) (g : Nat),
      net1.lstmCell = net2.lstmCell → net1.linear = net2.linear →
      net1.zeroState = net2.zeroState →
      generate net1 pretext g = generate net2 pretext g := by
  intro σ net1 net2 pretext g
  obtain ⟨c1, l1, z1, h1⟩ := net1
  obtain ⟨c2, l2, z2, h2⟩ := net2
  intro hc hl hz
  simp only at hc hl hz
  subst hc
  subst hl
  subst hz
  cases g with
  | zero => rfl
  | succ n =>
    have hf : MyRNN.forward ⟨c1, l1, z1, h1⟩ (onehot (tokenize pretext) input_size) true
        = MyRNN.forward ⟨c1, l1, z1, h2⟩ (onehot (tokenize pretext) input_size) true := rfl
    show genLoop ⟨c1, l1, z1, h1⟩ (tokenize pretext) pretext true (n + 1)
        = genLoop ⟨c1, l1, z1, h2⟩ (tokenize pretext) pretext true (n + 1)
    simp only [genLoop, hf]

/-- C7 witness: two concrete instances with identical weights but
different leftover stored states generate the same text. -/
theorem generate_deterministic_witness :
    generate (MyRNN.mk (fun (s : Unit) _ => s) (fun _ => [(1 : Int)]) () none) "a".toList 2
      = generate (MyRNN.mk (fun (s : Unit) _ => s) (fun _ => [(1 : Int)]) () (some ()))
          "a".toList 2 := by
  exact generate_deterministic Unit _ _ "a".toList 2 rfl rfl rfl

theorem genLoop_append {σ : Type} :
    ∀ (n : Nat) (net : MyRNN σ) (idx : List Nat) (out : List Char) (zh : Bool)
      (res : List Char), genLoop net idx out zh n = some res →
      ∃ gen : List Char, res = out ++ gen ∧ gen.length = n := by
  intro n
  induction n with
  | zero =>
    intro net idx out zh res h
    simp only [genLoop] at h
    injection h with h
    subst h
    exact ⟨[], by simp, rfl⟩
  | succ n ih =>
    intro net idx out zh res h
    simp only [genLoop] at h
    cases hf : MyRNN.forward net (onehot idx input_size) zh with
    | none => simp [hf] at h
    | some p =>
      obtain ⟨outputs, net1⟩ := p
      simp only [hf] at h
      cases hl : outputs.getLast? with
      | none => simp [hl] at h
      | some logits =>
        simp only [hl] at h
        cases hd : int_to_char (argmax logits) with
        | none => simp [hd] at h
        | some ch =>
          simp only [hd] at h
          obtain ⟨gen, hres, hlen⟩ := ih net1 [argmax logits] (out ++ [ch]) false res h
          refine ⟨ch :: gen, ?_, by simp [hlen]⟩
          rw [hres, List.append_assoc]
          rfl

/-- C8: a successful generation run returns the original priming string
followed by exactly `gen_length` generated characters; and on the
scenario — primer `"a"`, `gen_length` 3, weights whose logits always put
the maximum at index 0 — the output is `"a"` followed by `decode(0)`
three times, i.e. `"aaaa"`. -/
theorem generate_output_spec :
    (∀ (σ : Type) (net : MyRNN σ) (pretext : List Char) (g : Nat) (out : List Char),
      generate net pretext g = some out →
      out.take pretext.length = pretext ∧ out.length = pretext.length + g) ∧
    generate (MyRNN.mk (fun (s : Unit) _ => s) (fun _ => [(1 : Int)]) () none)
        "a".toList 3 = some "aaaa".toList := by
  constructor
  · intro σ net pretext g out h
    obtain ⟨gen, hres, hlen⟩ := genLoop_append g net (tokenize pretext) pretext true out h
    subst hres
    exact ⟨List.take_left pretext gen, by simp [hlen]⟩
  · decide

/-- C8 witness: the general concatenation property instantiated on the
scenario run itself. -/
theorem generate_output_spec_witness :
    List.take ("a".toList).length "aaaa".toList = "a".toList ∧
    ("aaaa".toList).length = ("a".toList).length + 3 := by
  exact generate_output_spec.1 Unit
    (MyRNN.mk (fun (s : Unit) _ => s) (fun _ => [(1 : Int)]) () none) "a".toList 3
    "aaaa".toList generate_output_spec.2

end LanguageModel
